import Mathlib

/-!
Shallow embedding of the voxel raycast subsystem (src/edition/raycast.cpp)
for verification of its natural-language specification.

Floating point (`float`, `Vector3`) is idealized as exact rational
arithmetic (`ℚ`), as the spec itself phrases the numeric claims "exactly
in real arithmetic; within floating rounding in the implementation".
Machine integers (`int`, `uint8_t`, `uint32_t`) are idealized as `Nat`/`Int`;
no arithmetic in this file can overflow their ranges for the inputs used.
-/

namespace VoxelRaycast

/-- Integer 3D grid coordinate (`Vector3i` in the source). -/
structure Int3 where
  x : Int
  y : Int
  z : Int
deriving DecidableEq, Repr

/-- Continuous 3D point/vector (`Vector3` in the source), with exact `ℚ`
components standing in for `real_t`. -/
structure Vec3 where
  x : ℚ
  y : ℚ
  z : ℚ
deriving DecidableEq, Repr

instance : Add Vec3 := ⟨fun a b => ⟨a.x + b.x, a.y + b.y, a.z + b.z⟩⟩

instance : Sub Vec3 := ⟨fun a b => ⟨a.x - b.x, a.y - b.y, a.z - b.z⟩⟩

instance : Neg Vec3 := ⟨fun a => ⟨-a.x, -a.y, -a.z⟩⟩

/-- Scalar multiplication `Vector3 * real_t`. -/
instance : HMul Vec3 ℚ Vec3 := ⟨fun a q => ⟨a.x * q, a.y * q, a.z * q⟩⟩

/-- Scalar division `Vector3 / real_t`. -/
instance : HDiv Vec3 ℚ Vec3 := ⟨fun a q => ⟨a.x / q, a.y / q, a.z / q⟩⟩

/-- Componentwise floor, mapping a continuous point to the grid cell
containing it (`Vector3i(v.floor())` in the traversal primitive). -/
def Vec3.floor (v : Vec3) : Int3 := ⟨⌊v.x⌋, ⌊v.y⌋, ⌊v.z⌋⟩

/-- `Vector3(Vector3i)` conversion. -/
def Int3.toVec3 (p : Int3) : Vec3 := ⟨(p.x : ℚ), (p.y : ℚ), (p.z : ℚ)⟩

/-- Godot `Vector3::distance_squared_to`. -/
def Vec3.distance_squared_to (a b : Vec3) : ℚ :=
  (b.x - a.x) * (b.x - a.x) + (b.y - a.y) * (b.y - a.y) + (b.z - a.z) * (b.z - a.z)

/-- The tagged per-voxel read result (`VoxelSingleValue`, a C union of a
float `f` and an integer `i`); modelled as a product, each use in the
source only writes and reads one of the two fields consistently. -/
structure VoxelSingleValue where
  f : ℚ
  i : Int
deriving DecidableEq, Repr

/-- The volumetric backend (`VoxelData`, external to this subsystem):
`get_voxel(position, channel, default)` is its only capability the raycast
code consumes. It must return the default where no data exists; that
contract is the caller's (backend's) responsibility. -/
structure VoxelData where
  get_voxel : Int3 → Nat → VoxelSingleValue → VoxelSingleValue

/-- Channel id `VoxelBuffer::CHANNEL_TYPE` (external enum, value 0). -/
def CHANNEL_TYPE : Nat := 0

/-- Channel id `VoxelBuffer::CHANNEL_SDF` (external enum, value 1). -/
def CHANNEL_SDF : Nat := 1

/-- Channel id `VoxelBuffer::CHANNEL_COLOR` (external enum, value 2). -/
def CHANNEL_COLOR : Nat := 2

/-- Modelled from the spec: `constants::SDF_FAR_OUTSIDE` (external constant,
not under src/), "a large positive constant representing no solid
material"; only its strict positivity matters to the claims. -/
def SDF_FAR_OUTSIDE : ℚ := 100

/-!
## Binary-Search Refiner

`approximate_distance_to_isosurface_binary_search` (raycast.cpp lines
19-63). The C++ takes a cell sampler `f` and only ever reads the field
through `get_sdf_interpolated(f, pos)` (external, edition/funcs.h); the
embedding therefore takes the composite interpolated sampler
`s : Vec3 → ℚ` (standing for `get_sdf_interpolated(f, ·)`) directly.
The two nudge loops and the bisection loop of the single C++ function are
named here so theorems can speak about the phases; each maps to the quoted
source lines.
-/

/-- First adjustment loop of the refiner (lines 30-33):
`for (int i = 0; i < 4 && sdf0 < 0.f; ++i) { d0 -= 0.5f; sdf0 = ...; }`,
written with the remaining trip count as fuel (called with fuel 4). -/
def nudge0 (s : Vec3 → ℚ) (pos0 dir : Vec3) : Nat → ℚ → ℚ → ℚ × ℚ
  | 0, d0, sdf0 => (d0, sdf0)
  | n + 1, d0, sdf0 =>
    if sdf0 < 0 then
      nudge0 s pos0 dir n (d0 - 1/2) (s (pos0 + dir * (d0 - 1/2)))
    else (d0, sdf0)

/-- Second adjustment loop of the refiner (lines 36-39):
`for (int i = 0; i < 4 && sdf1 > 0.f; ++i) { d1 += 0.5f; sdf1 = ...; }`. -/
def nudge1 (s : Vec3 → ℚ) (pos0 dir : Vec3) : Nat → ℚ → ℚ → ℚ × ℚ
  | 0, d1, sdf1 => (d1, sdf1)
  | n + 1, d1, sdf1 =>
    if 0 < sdf1 then
      nudge1 s pos0 dir n (d1 + 1/2) (s (pos0 + dir * (d1 + 1/2)))
    else (d1, sdf1)

/-- One bisection round (lines 43-54), on the state `(d0, sdf0, d1, sdf1)`:
evaluate the midpoint `dm = 0.5 * (d0 + d1)`; if `(sdf_mid > 0) != (sdf0 > 0)`
replace the `d1` endpoint, else the `d0` endpoint. -/
def bisectStep (s : Vec3 → ℚ) (pos0 dir : Vec3) (st : ℚ × ℚ × ℚ × ℚ) : ℚ × ℚ × ℚ × ℚ :=
  let dm := (st.1 + st.2.2.1) / 2
  let sm := s (pos0 + dir * dm)
  if decide (sm > 0) ≠ decide (st.2.1 > 0) then
    (st.1, st.2.1, dm, sm)
  else
    (dm, sm, st.2.2.1, st.2.2.2)

/-- State `(d0, sdf0, d1, sdf1)` of the refiner after the two nudge loops
and the (conditional) bisection loop (lines 26-55): bisect only when
`(sdf0 > 0) != (sdf1 > 0)`. -/
def refineState (s : Vec3 → ℚ) (pos0 dir : Vec3) (d1 : ℚ) (iterations : Nat) :
    ℚ × ℚ × ℚ × ℚ :=
  let p0 := nudge0 s pos0 dir 4 0 (s pos0)
  let p1 := nudge1 s pos0 dir 4 d1 (s (pos0 + dir * d1))
  if decide (p0.2 > 0) ≠ decide (p1.2 > 0) then
    (bisectStep s pos0 dir)^[iterations] (p0.1, p0.2, p1.1, p1.2)
  else
    (p0.1, p0.2, p1.1, p1.2)

/-- `approximate_distance_to_isosurface_binary_search` (lines 19-63):
after the nudge and bisection phases, pick the endpoint distance whose
field value is closest to the surface (lines 57-62). `iterations` is a C
`int`; negative counts (which run zero loop trips) are out of the spec's
scope, so it is embedded as `Nat`. -/
def approximate_distance_to_isosurface_binary_search
    (s : Vec3 → ℚ) (pos0 dir : Vec3) (d1 : ℚ) (iterations : Nat) : ℚ :=
  let st := refineState s pos0 dir d1 iterations
  if |st.2.1| < |st.2.2.2| then st.1 else st.2.2.1

/-- Number of loop trips the first nudge loop executes (same recursion as
`nudge0`, counting instead of accumulating). -/
def nudge0Count (s : Vec3 → ℚ) (pos0 dir : Vec3) : Nat → ℚ → ℚ → Nat
  | 0, _, _ => 0
  | n + 1, d0, sdf0 =>
    if sdf0 < 0 then
      nudge0Count s pos0 dir n (d0 - 1/2) (s (pos0 + dir * (d0 - 1/2))) + 1
    else 0

/-- Number of loop trips the second nudge loop executes. -/
def nudge1Count (s : Vec3 → ℚ) (pos0 dir : Vec3) : Nat → ℚ → ℚ → Nat
  | 0, _, _ => 0
  | n + 1, d1, sdf1 =>
    if 0 < sdf1 then
      nudge1Count s pos0 dir n (d1 + 1/2) (s (pos0 + dir * (d1 + 1/2))) + 1
    else 0

/-- Number of midpoint field evaluations the refiner performs: `iterations`
when the nudged endpoint signs differ (bisection runs), 0 otherwise
(bisection is skipped). -/
def refinerMidEvalCount (s : Vec3 → ℚ) (pos0 dir : Vec3) (d1 : ℚ) (iterations : Nat) : Nat :=
  let p0 := nudge0 s pos0 dir 4 0 (s pos0)
  let p1 := nudge1 s pos0 dir 4 d1 (s (pos0 + dir * d1))
  if decide (p0.2 > 0) ≠ decide (p1.2 > 0) then iterations else 0

/-- Total number of `get_sdf_interpolated` calls one refiner call issues:
the two bracket-endpoint evaluations (lines 27 and 35), the nudge loop
evaluations, and the midpoint evaluations. -/
def refinerSampleCount (s : Vec3 → ℚ) (pos0 dir : Vec3) (d1 : ℚ) (iterations : Nat) : Nat :=
  2 + nudge0Count s pos0 dir 4 0 (s pos0)
    + nudge1Count s pos0 dir 4 d1 (s (pos0 + dir * d1))
    + refinerMidEvalCount s pos0 dir d1 iterations

/-- Sign-difference invariant of the bisection bracket `(d0, sdf0, d1, sdf1)`:
the C++ test `(sdf0 > 0) != (sdf1 > 0)`. -/
def SignsDiffer (st : ℚ × ℚ × ℚ × ℚ) : Prop :=
  decide (st.2.1 > 0) ≠ decide (st.2.2.2 > 0)

instance (st : ℚ × ℚ × ℚ × ℚ) : Decidable (SignsDiffer st) :=
  inferInstanceAs (Decidable (_ ≠ _))

/-- The bracket state `(d0, sdf0, d1, sdf1)` right after the two nudge
loops, i.e. at entry of the refiner's (conditional) bisection phase. -/
def nudgedState (s : Vec3 → ℚ) (pos0 dir : Vec3) (d1 : ℚ) : ℚ × ℚ × ℚ × ℚ :=
  ((nudge0 s pos0 dir 4 0 (s pos0)).1, (nudge0 s pos0 dir 4 0 (s pos0)).2,
   (nudge1 s pos0 dir 4 d1 (s (pos0 + dir * d1))).1,
   (nudge1 s pos0 dir 4 d1 (s (pos0 + dir * d1))).2)

/-- Width `|d1 - d0|` of the bisection bracket. -/
def bracketWidth (st : ℚ × ℚ × ℚ × ℚ) : ℚ := |st.2.2.1 - st.1|

/-!
## Grid Traversal Primitive

`zylann::voxel_raycast` (util/voxel_raycast.h) is a collaborator of this
subsystem whose source is not under src/; it is modelled from the spec,
section 4.1.
-/

/-- The four traversal outputs (`hit_pos`, `prev_pos`, `hit_distance`,
`hit_distance_prev` out-parameters of `voxel_raycast`). -/
structure TraversalHit where
  hit_pos : Int3
  prev_pos : Int3
  hit_distance : ℚ
  hit_distance_prev : ℚ
deriving DecidableEq, Repr

/-- Modelled from the spec: distance (in units of `d`) from the origin
coordinate `o` at which the ray leaves cell index `c` along one axis;
`none` when the ray never crosses a boundary of this axis (`d = 0`). -/
def axisNext (o d : ℚ) (c : Int) : Option ℚ :=
  if 0 < d then some ((((c : ℚ) + 1) - o) / d)
  else if d < 0 then some (((c : ℚ) - o) / d)
  else none

/-- Unit step direction of one axis of the traversal. -/
def signStep (q : ℚ) : Int := if 0 < q then 1 else -1

/-- Availability-aware comparison for boundary-crossing distances:
`optBetter a b` holds when `a` is an available crossing no farther than
`b` (`none` acting as infinity). -/
def optBetter : Option ℚ → Option ℚ → Bool
  | none, _ => false
  | some _, none => true
  | some a, some b => a ≤ b

/-- Modelled from the spec: one step of the 3D DDA — "advances to the next
cell boundary crossed by the ray, in strictly increasing distance order".
Returns the entry distance and index of the next cell; ties are broken on
the x then y axis (the prev/hit adjacency invariant of spec section 3
requires a step along exactly one axis). `none` when the ray direction is
the zero vector. -/
def ddaStep (o d : Vec3) (c : Int3) : Option (ℚ × Int3) :=
  let tx := axisNext o.x d.x c.x
  let ty := axisNext o.y d.y c.y
  let tz := axisNext o.z d.z c.z
  if optBetter tx ty && optBetter tx tz then
    tx.map (fun t => (t, { c with x := c.x + signStep d.x }))
  else if optBetter ty tz then
    ty.map (fun t => (t, { c with y := c.y + signStep d.y }))
  else
    tz.map (fun t => (t, { c with z := c.z + signStep d.z }))

/-- Modelled from the spec: the traversal loop — test the predicate once
per cell, in strictly increasing entry-distance order, on every cell
entered strictly before `maxd`; stop with the current and previous cell
and their entry distances at the first hit, with `none` once the distance
budget is exhausted. `fuel` bounds the number of steps (chosen large
enough by `voxel_raycast` below; it also makes a zero-direction ray, which
never crosses another boundary, return `none`). -/
def stepLoop (pred : Int3 → Bool) (o d : Vec3) (maxd : ℚ) :
    Nat → Int3 → Int3 → ℚ → ℚ → Option TraversalHit
  | 0, _, _, _, _ => none
  | n + 1, c, cprev, t, tprev =>
    if t < maxd then
      if pred c then some ⟨c, cprev, t, tprev⟩
      else
        match ddaStep o d c with
        | none => none
        | some (t', c') => stepLoop pred o d maxd n c' c t' t
    else none

/-- Steps over-approximating how many unit-cell boundaries a ray of
direction `d` can cross within distance `maxd`: the per-axis crossing
counts `|d.i| * maxd + 1` summed, plus one for the starting cell. -/
def raycastFuel (d : Vec3) (maxd : ℚ) : Nat :=
  (⌈(|d.x| + |d.y| + |d.z|) * maxd⌉).toNat + 4

/-- Modelled from the spec: `zylann::voxel_raycast(origin, direction,
predicate, max_distance, out hit_pos, out prev_pos, out hit_distance, out
hit_distance_prev)` (util/voxel_raycast.h, not under src/), per spec
section 4.1. The starting cell is the one containing the origin, entered
at distance 0; at a hit on the starting cell the previous cell and
distance degenerate to the starting cell itself (the spec's "ray origin
edge case"). -/
def voxel_raycast (o d : Vec3) (pred : Int3 → Bool) (maxd : ℚ) : Option TraversalHit :=
  stepLoop pred o d maxd (raycastFuel d maxd) (Vec3.floor o) (Vec3.floor o) 0 0

/-!
## Predicate Variants and Raycast Orchestrators (raycast.cpp lines 65-301)
-/

/-- `RaycastPredicate` local struct of `raycast_sdf` (lines 80-90): read
the SDF channel with the far-outside sentinel as default; hit iff the
value is strictly negative. The `VoxelRaycastState` argument is reduced to
the only field the predicate reads, `rs.hit_position`. -/
def RaycastPredicate (data : VoxelData) (hit_position : Int3) : Bool :=
  let defval : VoxelSingleValue := ⟨SDF_FAR_OUTSIDE, 0⟩
  let v := data.get_voxel hit_position CHANNEL_SDF defval
  decide (v.f < 0)

/-- `VolumeSampler` local struct of `raycast_sdf` (lines 132-141): the
cell sampler handed to the refiner, reading the SDF channel with the
far-outside sentinel as default. -/
def VolumeSampler (data : VoxelData) (pos : Int3) : ℚ :=
  (data.get_voxel pos CHANNEL_SDF ⟨SDF_FAR_OUTSIDE, 0⟩).f

/-- The result record (`VoxelRaycastResult`): hit cell, previous cell and
distance along the ray; absence of a result models a null `Ref`. -/
structure VoxelRaycastResult where
  position : Int3
  previous_position : Int3
  distance_along_ray : ℚ
deriving DecidableEq, Repr

/-- `raycast_sdf` (lines 65-161). `get_sdf_interpolated` (edition/funcs.h,
not under src/) is the external interpolating read the refiner samples
through; it is threaded as an explicit parameter, per spec section 4.2.
The ray origin is offset by `(0.5, 0.5, 0.5)` before traversal (line
115-117), and on a hit the distance is refined only when
`binary_search_iterations > 0` (lines 128-152). -/
def raycast_sdf (get_sdf_interpolated : (Int3 → ℚ) → Vec3 → ℚ)
    (voxel_data : VoxelData) (ray_origin ray_dir : Vec3) (max_distance : ℚ)
    (binary_search_iterations : Nat) : Option VoxelRaycastResult :=
  let offset : Vec3 := ⟨1/2, 1/2, 1/2⟩
  match voxel_raycast (ray_origin + offset) ray_dir (RaycastPredicate voxel_data) max_distance with
  | none => none
  | some hit =>
    let d : ℚ :=
      if 0 < binary_search_iterations then
        hit.hit_distance_prev +
          approximate_distance_to_isosurface_binary_search
            (get_sdf_interpolated (VolumeSampler voxel_data))
            (ray_origin + ray_dir * hit.hit_distance_prev)
            ray_dir
            (hit.hit_distance - hit.hit_distance_prev)
            binary_search_iterations
      else hit.hit_distance
    some ⟨hit.hit_pos, hit.prev_pos, d⟩

/-- One axis-aligned collision box of a blocky model (Godot `AABB`). -/
structure AABB where
  position : Vec3
  size : Vec3

/-- Baked collision data of one voxel type (`VoxelBlockyModel::BakedData`,
external; only the two members the predicate reads). -/
structure BakedModel where
  box_collision_mask : Nat
  box_collision_aabbs : List AABB

/-- Baked library data (`VoxelBlockyLibraryBase::BakedData`, external):
`has_model` and `models[]` are folded into one optional lookup. -/
structure BakedLibrary where
  getModel : Int → Option BakedModel

/-- Modelled from the spec: one axis of a segment/box slab clip, narrowing
the admissible parameter interval `[lo, hi] ⊆ [0, 1]` of the segment. -/
def clipAxis (lo hi pmin pmax pi qi : ℚ) : Option (ℚ × ℚ) :=
  let di := qi - pi
  if di = 0 then
    if pi < pmin ∨ pmax < pi then none else some (lo, hi)
  else
    let t1 := (pmin - pi) / di
    let t2 := (pmax - pi) / di
    let lo' := max lo (min t1 t2)
    let hi' := min hi (max t1 t2)
    if hi' < lo' then none else some (lo', hi')

/-- Modelled from the spec: Godot `AABB::intersects_segment(from, to)`
(external), as the exact slab test — the closed box meets the closed
segment from `p` to `q`. -/
def intersects_segment (aabb : AABB) (p q : Vec3) : Bool :=
  let bmin := aabb.position
  let bmax := aabb.position + aabb.size
  match clipAxis 0 1 bmin.x bmax.x p.x q.x with
  | none => false
  | some (lo1, hi1) =>
    match clipAxis lo1 hi1 bmin.y bmax.y p.y q.y with
    | none => false
    | some (lo2, hi2) => (clipAxis lo2 hi2 bmin.z bmax.z p.z q.z).isSome

/-- `RaycastPredicateBlocky` local struct of `raycast_blocky` (lines
171-200): read the TYPE channel (default 0), require a baked model whose
collision mask intersects the query mask, then test each collision box
(offset by the cell coordinate) against the whole ray segment. -/
def RaycastPredicateBlocky (data : VoxelData) (baked_data : BakedLibrary)
    (collision_mask : Nat) (p_from p_to : Vec3) (hit_position : Int3) : Bool :=
  let v := (data.get_voxel hit_position CHANNEL_TYPE ⟨0, 0⟩).i
  match baked_data.getModel v with
  | none => false
  | some model =>
    if model.box_collision_mask &&& collision_mask = 0 then false
    else
      model.box_collision_aabbs.any fun aabb =>
        intersects_segment ⟨aabb.position + hit_position.toVec3, aabb.size⟩ p_from p_to

/-- `raycast_blocky` (lines 163-232). The `VoxelMesherBlocky` argument is
reduced to what the function reads from it: `mesher.get_library()`, `none`
modelling a null library reference (line 205). No origin offset and no
refinement. -/
def raycast_blocky (voxel_data : VoxelData) (library : Option BakedLibrary)
    (ray_origin ray_dir : Vec3) (max_distance : ℚ) (p_collision_mask : Nat) :
    Option VoxelRaycastResult :=
  match library with
  | none => none
  | some lib =>
    match voxel_raycast ray_origin ray_dir
        (RaycastPredicateBlocky voxel_data lib p_collision_mask
          ray_origin (ray_origin + ray_dir * max_distance))
        max_distance with
    | none => none
    | some hit => some ⟨hit.hit_pos, hit.prev_pos, hit.hit_distance⟩

/-- `RaycastPredicateColor` local struct of `raycast_nonzero` (lines
241-251): hit iff the chosen channel's value (default 0) is nonzero. -/
def RaycastPredicateColor (data : VoxelData) (channel : Nat) (hit_position : Int3) : Bool :=
  let v := (data.get_voxel hit_position channel ⟨0, 0⟩).i
  decide (v ≠ 0)

/-- `raycast_nonzero` (lines 234-272). -/
def raycast_nonzero (voxel_data : VoxelData) (ray_origin ray_dir : Vec3)
    (max_distance : ℚ) (p_channel : Nat) : Option VoxelRaycastResult :=
  match voxel_raycast ray_origin ray_dir (RaycastPredicateColor voxel_data p_channel)
      max_distance with
  | none => none
  | some hit => some ⟨hit.hit_pos, hit.prev_pos, hit.hit_distance⟩

/-- The runtime kind of the supplied mesher, as `raycast_generic` can
distinguish it through `try_get_as` (lines 290-297): a blocky mesher
(carrying its possibly-null baked library), a cubes mesher, or anything
else (including a null mesher reference), which falls back to the SDF
path. -/
inductive VoxelMesher where
  | blocky (library : Option BakedLibrary)
  | cubes
  | other

/-- `raycast_generic` (lines 274-301): dispatch on the mesher kind. Note
line 297 calls the SDF path with a literal `0` for
`binary_search_iterations`; the function's own `binary_search_iterations`
parameter is never read. -/
def raycast_generic (get_sdf_interpolated : (Int3 → ℚ) → Vec3 → ℚ)
    (voxel_data : VoxelData) (mesher : VoxelMesher) (ray_origin ray_dir : Vec3)
    (max_distance : ℚ) (p_collision_mask : Nat) (binary_search_iterations : Nat) :
    Option VoxelRaycastResult :=
  match mesher with
  | .blocky library =>
    raycast_blocky voxel_data library ray_origin ray_dir max_distance p_collision_mask
  | .cubes =>
    raycast_nonzero voxel_data ray_origin ray_dir max_distance CHANNEL_COLOR
  | .other =>
    raycast_sdf get_sdf_interpolated voxel_data ray_origin ray_dir max_distance 0

/-!
## World-space wrapper (raycast.cpp lines 303-345)

`Transform3D`, `Basis` and `Math::sqrt` are external Godot facilities;
they are modelled from the spec's boundary contract (section 6: "an affine
transform with `apply(point) -> point` and `invert() -> transform`").
-/

/-- Modelled from the spec: a 3x3 linear basis (Godot `Basis`, external),
row-major. -/
structure Basis where
  xx : ℚ
  xy : ℚ
  xz : ℚ
  yx : ℚ
  yy : ℚ
  yz : ℚ
  zx : ℚ
  zy : ℚ
  zz : ℚ
deriving DecidableEq, Repr

/-- Basis application to a vector. -/
def Basis.xform (b : Basis) (v : Vec3) : Vec3 :=
  ⟨b.xx * v.x + b.xy * v.y + b.xz * v.z,
   b.yx * v.x + b.yy * v.y + b.yz * v.z,
   b.zx * v.x + b.zy * v.y + b.zz * v.z⟩

/-- Determinant of a basis. -/
def Basis.det (b : Basis) : ℚ :=
  b.xx * (b.yy * b.zz - b.yz * b.zy)
    - b.xy * (b.yx * b.zz - b.yz * b.zx)
    + b.xz * (b.yx * b.zy - b.yy * b.zx)

/-- Modelled from the spec: basis inversion (adjugate over determinant). -/
def Basis.inverse (b : Basis) : Basis :=
  let d := b.det
  ⟨(b.yy * b.zz - b.yz * b.zy) / d, (b.xz * b.zy - b.xy * b.zz) / d,
   (b.xy * b.yz - b.xz * b.yy) / d,
   (b.yz * b.zx - b.yx * b.zz) / d, (b.xx * b.zz - b.xz * b.zx) / d,
   (b.xz * b.yx - b.xx * b.yz) / d,
   (b.yx * b.zy - b.yy * b.zx) / d, (b.xy * b.zx - b.xx * b.zy) / d,
   (b.xx * b.yy - b.xy * b.yx) / d⟩

/-- Modelled from the spec: Godot `Transform3D` (external), an affine
transform: linear basis plus translation. -/
structure Transform3D where
  basis : Basis
  origin : Vec3
deriving DecidableEq, Repr

/-- Affine application `Transform3D::xform`. -/
def Transform3D.xform (t : Transform3D) (v : Vec3) : Vec3 :=
  t.basis.xform v + t.origin

/-- Modelled from the spec: `Transform3D::affine_inverse` — invert the
basis and map the negated origin through it. -/
def Transform3D.affine_inverse (t : Transform3D) : Transform3D :=
  let binv := t.basis.inverse
  ⟨binv, binv.xform (-t.origin)⟩

/-- The identity transform. -/
def Transform3D.identity : Transform3D :=
  ⟨⟨1, 0, 0, 0, 1, 0, 0, 0, 1⟩, ⟨0, 0, 0⟩⟩

/-- Largest `m ≤ k` with `m * m ≤ n` (0 when none), by downward search:
a structurally recursive integer square root. -/
def natSqrtAux : Nat → Nat → Nat
  | 0, _ => 0
  | k + 1, n => if (k + 1) * (k + 1) ≤ n then k + 1 else natSqrtAux k n

/-- Integer square root `⌊√n⌋` (structurally recursive, unlike
`Nat.sqrt`, so that concrete raycasts evaluate inside the kernel). -/
def natSqrt (n : Nat) : Nat := natSqrtAux n n

/-- Modelled from the spec: `Math::sqrt` (external). On ℚ it is computed
from the integer square roots of numerator and denominator, which is exact
on every perfect-square rational — the only inputs the theorems below
evaluate it on (a rational model of an irrational function cannot be exact
elsewhere). Negative inputs (impossible here: it is only applied to a
squared distance) map to 0. -/
def sqrtQ (q : ℚ) : ℚ := (natSqrt q.num.toNat : ℚ) / (natSqrt q.den : ℚ)

/-- `raycast_generic_world` (lines 303-345): transform the ray endpoints
to local space, reject a degenerate local segment (squared length below
`0.000001f`), raycast in local space with a normalized direction — note
line 335 passes a literal `0` for `binary_search_iterations` — and rescale
the hit distance by the squared-length ratio of the world and local
spans. -/
def raycast_generic_world (get_sdf_interpolated : (Int3 → ℚ) → Vec3 → ℚ)
    (voxel_data : VoxelData) (mesher : VoxelMesher) (to_world : Transform3D)
    (ray_origin_world ray_dir_world : Vec3) (max_distance_world : ℚ)
    (p_collision_mask : Nat) (binary_search_iterations : Nat) :
    Option VoxelRaycastResult :=
  let ray_end_world := ray_origin_world + ray_dir_world * max_distance_world
  let to_local := to_world.affine_inverse
  let pos0_local := to_local.xform ray_origin_world
  let pos1_local := to_local.xform ray_end_world
  let max_distance_local_sq := pos0_local.distance_squared_to pos1_local
  if max_distance_local_sq < 1/1000000 then none
  else
    let max_distance_local := sqrtQ max_distance_local_sq
    let dir_local := (pos1_local - pos0_local) / max_distance_local
    match raycast_generic get_sdf_interpolated voxel_data mesher pos0_local dir_local
        max_distance_local p_collision_mask 0 with
    | none => none
    | some res =>
      let max_distance_world_sq := ray_origin_world.distance_squared_to ray_end_world
      let to_world_scale := max_distance_world_sq / max_distance_local_sq
      some { res with distance_along_ray := res.distance_along_ray * to_world_scale }

/-!
## Concrete instances used by counterexamples and witnesses
-/

/-- An interpolated field (for the claims quantifying over one) whose
values along the x axis exhibit a bracket that stays negative after the
backward nudges: −1 at 0, slowly rising to −1/10 at −2, and −1/2 at 1. -/
def c1Sampler : Vec3 → ℚ := fun v =>
  if v.x = 0 then -1
  else if v.x = -1/2 then -9/10
  else if v.x = -1 then -8/10
  else if v.x = -3/2 then -7/10
  else if v.x = -2 then -1/10
  else if v.x = 1 then -1/2
  else 1

/-- An interpolated field with a genuine sign change on the nudged
bracket: the plane `x = 1/4`. -/
def planeSampler : Vec3 → ℚ := fun v => v.x - 1/4

/-- A volume whose only stored SDF value is −1 at cell (0,0,0). -/
def originSolidVd : VoxelData :=
  ⟨fun pos ch dv => if ch = CHANNEL_SDF ∧ pos = ⟨0, 0, 0⟩ then ⟨-1, 0⟩ else dv⟩

/-- A volume whose only stored SDF value is −1 at cell (2,0,0). -/
def twoSolidVd : VoxelData :=
  ⟨fun pos ch dv => if ch = CHANNEL_SDF ∧ pos = ⟨2, 0, 0⟩ then ⟨-1, 0⟩ else dv⟩

/-- The volume with no stored data anywhere: every read yields the
caller's default. -/
def emptyVd : VoxelData := ⟨fun _ _ dv => dv⟩

/-- A concrete stand-in for the external `get_sdf_interpolated`:
nearest-cell (floor) interpolation. -/
def nearestSample (g : Int3 → ℚ) (v : Vec3) : ℚ := g v.floor

/-- A volumetric backend built from a partial SDF channel map, honoring
the `get_voxel` contract of returning the caller's default exactly where
the map has no data. -/
def VoxelData.ofSdfMap (m : Int3 → Option ℚ) : VoxelData :=
  ⟨fun pos channel defval =>
    if channel = CHANNEL_SDF then
      match m pos with
      | some q => ⟨q, 0⟩
      | none => defval
    else defval⟩

/-!
## Helper lemmas
-/

theorem Vec3.add_def (a b : Vec3) : a + b = ⟨a.x + b.x, a.y + b.y, a.z + b.z⟩ := rfl

theorem Vec3.sub_def (a b : Vec3) : a - b = ⟨a.x - b.x, a.y - b.y, a.z - b.z⟩ := rfl

theorem Vec3.mulq_def (a : Vec3) (q : ℚ) : a * q = ⟨a.x * q, a.y * q, a.z * q⟩ := rfl

theorem Vec3.divq_def (a : Vec3) (q : ℚ) : a / q = ⟨a.x / q, a.y / q, a.z / q⟩ := rfl

theorem Vec3.add_mul_zero (p d : Vec3) : p + d * (0 : ℚ) = p := by
  rw [Vec3.mulq_def, Vec3.add_def]
  simp

theorem natSqrtAux_mul_self (d : Nat) : ∀ k, d ≤ k → natSqrtAux k (d * d) = d := by
  intro k
  induction k with
  | zero => intro hd; interval_cases d; rfl
  | succ k ih =>
    intro hd
    by_cases h : (k + 1) * (k + 1) ≤ d * d
    · have hkd : k + 1 ≤ d := by
        by_contra hcon
        have : d < k + 1 := by omega
        have := Nat.mul_lt_mul_of_lt_of_le this (Nat.le_of_lt this) (by omega)
        omega
      have : d = k + 1 := by omega
      subst this
      simp [natSqrtAux, h]
    · have hdk : d ≤ k := by
        by_contra hcon
        have : d = k + 1 := by omega
        subst this
        exact h (le_refl _)
      simp only [natSqrtAux, if_neg h]
      exact ih hdk

theorem natSqrt_mul_self (d : Nat) : natSqrt (d * d) = d := by
  apply natSqrtAux_mul_self
  cases d with
  | zero => omega
  | succ n => exact Nat.le_mul_of_pos_left _ (Nat.succ_pos n)

theorem sqrtQ_mul_self (q : ℚ) (h : 0 ≤ q) : sqrtQ (q * q) = q := by
  have hq : (0 : ℤ) ≤ q.num := Rat.num_nonneg.mpr h
  obtain ⟨a, ha⟩ := Int.eq_ofNat_of_zero_le hq
  rw [sqrtQ, Rat.mul_self_num, Rat.mul_self_den, ha]
  rw [show ((a : ℤ) * (a : ℤ)).toNat = a * a from by
    rw [← Int.natCast_mul, Int.toNat_natCast]]
  rw [natSqrt_mul_self, natSqrt_mul_self]
  have hd := Rat.num_div_den q
  rw [ha] at hd
  simpa using hd

/-- Characterization of the first nudge loop at any fuel: it performs some
number `k` of half-unit backward steps, bounded by the fuel, every sample
seen before the last step was negative, and if the fuel was not exhausted
the final sample is non-negative. -/
theorem nudge0_spec (s : Vec3 → ℚ) (pos0 dir : Vec3) :
    ∀ (n : Nat) (d0 : ℚ), ∃ k, k ≤ n ∧
      nudge0 s pos0 dir n d0 (s (pos0 + dir * d0)) =
        (d0 - (k : ℚ) / 2, s (pos0 + dir * (d0 - (k : ℚ) / 2))) ∧
      (∀ j < k, s (pos0 + dir * (d0 - (j : ℚ) / 2)) < 0) ∧
      (k < n → 0 ≤ s (pos0 + dir * (d0 - (k : ℚ) / 2))) := by
  intro n
  induction n with
  | zero =>
    intro d0
    refine ⟨0, le_refl 0, by simp [nudge0], fun j hj => absurd hj (by omega), by omega⟩
  | succ n ih =>
    intro d0
    by_cases h : s (pos0 + dir * d0) < 0
    · obtain ⟨k, hk, heq, hneg, hstop⟩ := ih (d0 - 1/2)
      have harith : d0 - 1/2 - (k : ℚ) / 2 = d0 - ((k + 1 : Nat) : ℚ) / 2 := by
        push_cast; ring
      refine ⟨k + 1, by omega, ?_, ?_, ?_⟩
      · rw [show nudge0 s pos0 dir (n + 1) d0 (s (pos0 + dir * d0)) =
            nudge0 s pos0 dir n (d0 - 1/2) (s (pos0 + dir * (d0 - 1/2))) from by
          rw [nudge0, if_pos h]]
        rw [heq, harith]
      · intro j hj
        cases j with
        | zero => simpa using h
        | succ j' =>
          have e : d0 - 1/2 - (j' : ℚ) / 2 = d0 - ((j' + 1 : Nat) : ℚ) / 2 := by
            push_cast; ring
          have := hneg j' (by omega)
          rwa [e] at this
      · intro hlt
        have := hstop (by omega)
        rwa [harith] at this
    · refine ⟨0, by omega, ?_, fun j hj => absurd hj (by omega), ?_⟩
      · rw [nudge0, if_neg h]
        simp
      · intro _
        simpa using not_lt.mp h

/-- Characterization of the second nudge loop, symmetric to
`nudge0_spec`: `k` half-unit forward steps, all earlier samples positive,
and a non-positive final sample unless the fuel ran out. -/
theorem nudge1_spec (s : Vec3 → ℚ) (pos0 dir : Vec3) :
    ∀ (n : Nat) (d1 : ℚ), ∃ k, k ≤ n ∧
      nudge1 s pos0 dir n d1 (s (pos0 + dir * d1)) =
        (d1 + (k : ℚ) / 2, s (pos0 + dir * (d1 + (k : ℚ) / 2))) ∧
      (∀ j < k, 0 < s (pos0 + dir * (d1 + (j : ℚ) / 2))) ∧
      (k < n → s (pos0 + dir * (d1 + (k : ℚ) / 2)) ≤ 0) := by
  intro n
  induction n with
  | zero =>
    intro d1
    refine ⟨0, le_refl 0, by simp [nudge1], fun j hj => absurd hj (by omega), by omega⟩
  | succ n ih =>
    intro d1
    by_cases h : 0 < s (pos0 + dir * d1)
    · obtain ⟨k, hk, heq, hpos, hstop⟩ := ih (d1 + 1/2)
      have harith : d1 + 1/2 + (k : ℚ) / 2 = d1 + ((k + 1 : Nat) : ℚ) / 2 := by
        push_cast; ring
      refine ⟨k + 1, by omega, ?_, ?_, ?_⟩
      · rw [show nudge1 s pos0 dir (n + 1) d1 (s (pos0 + dir * d1)) =
            nudge1 s pos0 dir n (d1 + 1/2) (s (pos0 + dir * (d1 + 1/2))) from by
          rw [nudge1, if_pos h]]
        rw [heq, harith]
      · intro j hj
        cases j with
        | zero => simpa using h
        | succ j' =>
          have e : d1 + 1/2 + (j' : ℚ) / 2 = d1 + ((j' + 1 : Nat) : ℚ) / 2 := by
            push_cast; ring
          have := hpos j' (by omega)
          rwa [e] at this
      · intro hlt
        have := hstop (by omega)
        rwa [harith] at this
    · refine ⟨0, by omega, ?_, fun j hj => absurd hj (by omega), ?_⟩
      · rw [nudge1, if_neg h]
        simp
      · intro _
        simpa using not_lt.mp h

theorem nudge0Count_le (s : Vec3 → ℚ) (pos0 dir : Vec3) :
    ∀ (n : Nat) (d0 sdf0 : ℚ), nudge0Count s pos0 dir n d0 sdf0 ≤ n := by
  intro n
  induction n with
  | zero => intro d0 sdf0; rw [nudge0Count]
  | succ n ih =>
    intro d0 sdf0
    rw [nudge0Count]
    split
    · exact Nat.succ_le_succ (ih _ _)
    · omega

theorem nudge1Count_le (s : Vec3 → ℚ) (pos0 dir : Vec3) :
    ∀ (n : Nat) (d1 sdf1 : ℚ), nudge1Count s pos0 dir n d1 sdf1 ≤ n := by
  intro n
  induction n with
  | zero => intro d1 sdf1; rw [nudge1Count]
  | succ n ih =>
    intro d1 sdf1
    rw [nudge1Count]
    split
    · exact Nat.succ_le_succ (ih _ _)
    · omega

/-- A property closed under a function is preserved by its iterates. -/
theorem iterate_preserves {α : Type} (f : α → α) (P : α → Prop)
    (hf : ∀ a, P a → P (f a)) : ∀ (n : Nat) (a : α), P a → P (f^[n] a) := by
  intro n
  induction n with
  | zero => intro a ha; simpa using ha
  | succ n ih =>
    intro a ha
    rw [Function.iterate_succ_apply']
    exact hf _ (ih a ha)

/-- One bisection round preserves the sign-difference invariant of the
bracket: the replaced endpoint is always the one sharing the midpoint
sample's sign. -/
theorem bisectStep_signsDiffer (s : Vec3 → ℚ) (pos0 dir : Vec3) (st : ℚ × ℚ × ℚ × ℚ)
    (h : SignsDiffer st) : SignsDiffer (bisectStep s pos0 dir st) := by
  obtain ⟨d0, sdf0, d1, sdf1⟩ := st
  simp only [SignsDiffer, bisectStep] at *
  by_cases hc :
      decide (s (pos0 + dir * ((d0 + d1) / 2)) > 0) ≠ decide (sdf0 > 0)
  · rw [if_pos hc]
    exact fun e => hc (Eq.symm e)
  · rw [if_neg hc]
    push_neg at hc
    simpa [hc] using h

/-- One bisection round halves the bracket width exactly (in the ℚ
idealization of float arithmetic). -/
theorem bisectStep_width (s : Vec3 → ℚ) (pos0 dir : Vec3) (st : ℚ × ℚ × ℚ × ℚ) :
    bracketWidth (bisectStep s pos0 dir st) = bracketWidth st / 2 := by
  obtain ⟨d0, sdf0, d1, sdf1⟩ := st
  simp only [bisectStep, bracketWidth]
  split_ifs
  · rw [show (d0 + d1) / 2 - d0 = (d1 - d0) / 2 from by ring, abs_div, abs_two]
  · rw [show d1 - (d0 + d1) / 2 = (d1 - d0) / 2 from by ring, abs_div, abs_two]

/-- One bisection round keeps both bracket endpoints inside any interval
containing them (the midpoint of two members of an interval is one). -/
theorem bisectStep_bounds (s : Vec3 → ℚ) (pos0 dir : Vec3) (lo hi : ℚ)
    (st : ℚ × ℚ × ℚ × ℚ)
    (h : lo ≤ st.1 ∧ st.1 ≤ hi ∧ lo ≤ st.2.2.1 ∧ st.2.2.1 ≤ hi) :
    lo ≤ (bisectStep s pos0 dir st).1 ∧ (bisectStep s pos0 dir st).1 ≤ hi ∧
      lo ≤ (bisectStep s pos0 dir st).2.2.1 ∧ (bisectStep s pos0 dir st).2.2.1 ≤ hi := by
  obtain ⟨d0, sdf0, d1, sdf1⟩ := st
  obtain ⟨h1, h2, h3, h4⟩ := h
  simp only [bisectStep]
  split_ifs <;> refine ⟨?_, ?_, ?_, ?_⟩ <;> simp <;> linarith

-- Batteries marks the Rat field operations irreducible; the kernel
-- evaluation of this concrete statement needs them unfolded.
unseal Rat.add Rat.sub Rat.mul Rat.inv in
/-- The identity transform is its own affine inverse. -/
theorem identity_affine_inverse :
    Transform3D.identity.affine_inverse = Transform3D.identity := by decide

/-- `raycast_generic` never reads its `binary_search_iterations`
parameter (line 297 passes a literal 0 to `raycast_sdf`). -/
theorem raycast_generic_bsi_unused (gsi : (Int3 → ℚ) → Vec3 → ℚ) (vd : VoxelData)
    (mesher : VoxelMesher) (o d : Vec3) (maxd : ℚ) (mask : Nat) (b b' : Nat) :
    raycast_generic gsi vd mesher o d maxd mask b =
      raycast_generic gsi vd mesher o d maxd mask b' := rfl

/-!
## Claim theorems
-/

-- Batteries marks the Rat field operations irreducible; the kernel
-- evaluation of this concrete statement needs them unfolded.
unseal Rat.add Rat.sub Rat.mul Rat.inv in
/-- Claim C1, counterexample. With the field `c1Sampler` along the ray
from the origin in direction x, the two bracket endpoints still have the
same sign after the nudging adjustments (so the claim's scenario applies),
yet the refiner returns −2 — an endpoint of the *nudged* bracket — which
is neither endpoint of the unmodified bracket `[0, 1]`, and in particular
not the endpoint 1 that the claim (smaller absolute sampled value at the
unmodified endpoints) designates. -/
theorem refine_same_sign_unmodified_endpoint_cex :
    (decide ((nudge0 c1Sampler ⟨0, 0, 0⟩ ⟨1, 0, 0⟩ 4 0 (c1Sampler ⟨0, 0, 0⟩)).2 > 0) =
      decide ((nudge1 c1Sampler ⟨0, 0, 0⟩ ⟨1, 0, 0⟩ 4 1
        (c1Sampler ((⟨0, 0, 0⟩ : Vec3) + (⟨1, 0, 0⟩ : Vec3) * (1 : ℚ)))).2 > 0)) ∧
    approximate_distance_to_isosurface_binary_search c1Sampler ⟨0, 0, 0⟩ ⟨1, 0, 0⟩ 1 8 = -2 ∧
    (-2 : ℚ) ≠ 0 ∧ (-2 : ℚ) ≠ 1 ∧
    (if |c1Sampler ⟨0, 0, 0⟩| <
        |c1Sampler ((⟨0, 0, 0⟩ : Vec3) + (⟨1, 0, 0⟩ : Vec3) * (1 : ℚ))|
      then (0 : ℚ) else 1) = 1 := by
  refine ⟨?_, ?_, ?_, ?_, ?_⟩ <;> decide

/-- Claim C1 (corrected): for every sampler, pos0, dir, d1_initial and
iteration count, if after the two nudging adjustments the field values at
the two bracket endpoints have the same sign (under the `> 0` test), the
refiner skips bisection (zero midpoint evaluations) and returns the
nearer-to-zero endpoint of the *nudged* bracket `[d0, d1]` — the endpoint
whose adjusted sampled field value has the smaller absolute value, `d1` on
ties. -/
theorem refine_same_sign_returns_nudged_endpoint
    (s : Vec3 → ℚ) (pos0 dir : Vec3) (d1i : ℚ) (iterations : Nat)
    (h : decide ((nudge0 s pos0 dir 4 0 (s pos0)).2 > 0) =
      decide ((nudge1 s pos0 dir 4 d1i (s (pos0 + dir * d1i))).2 > 0)) :
    approximate_distance_to_isosurface_binary_search s pos0 dir d1i iterations =
      (if |(nudge0 s pos0 dir 4 0 (s pos0)).2| <
          |(nudge1 s pos0 dir 4 d1i (s (pos0 + dir * d1i))).2|
        then (nudge0 s pos0 dir 4 0 (s pos0)).1
        else (nudge1 s pos0 dir 4 d1i (s (pos0 + dir * d1i))).1) ∧
    refinerMidEvalCount s pos0 dir d1i iterations = 0 := by
  constructor
  · simp only [approximate_distance_to_isosurface_binary_search, refineState]
    rw [if_neg (not_ne_iff.mpr h)]
  · simp only [refinerMidEvalCount]
    rw [if_neg (not_ne_iff.mpr h)]

-- Batteries marks the Rat field operations irreducible; the kernel
-- evaluation of this concrete statement needs them unfolded.
unseal Rat.add Rat.sub Rat.mul Rat.inv in
/-- Claim C1, witness for the corrected statement at the concrete
`c1Sampler` input. -/
theorem refine_same_sign_returns_nudged_endpoint_witness :
    (decide ((nudge0 c1Sampler ⟨0, 0, 0⟩ ⟨1, 0, 0⟩ 4 0 (c1Sampler ⟨0, 0, 0⟩)).2 > 0) =
      decide ((nudge1 c1Sampler ⟨0, 0, 0⟩ ⟨1, 0, 0⟩ 4 1
        (c1Sampler ((⟨0, 0, 0⟩ : Vec3) + (⟨1, 0, 0⟩ : Vec3) * (1 : ℚ)))).2 > 0)) ∧
    (approximate_distance_to_isosurface_binary_search c1Sampler ⟨0, 0, 0⟩ ⟨1, 0, 0⟩ 1 8 =
      (if |(nudge0 c1Sampler ⟨0, 0, 0⟩ ⟨1, 0, 0⟩ 4 0 (c1Sampler ⟨0, 0, 0⟩)).2| <
          |(nudge1 c1Sampler ⟨0, 0, 0⟩ ⟨1, 0, 0⟩ 4 1
            (c1Sampler ((⟨0, 0, 0⟩ : Vec3) + (⟨1, 0, 0⟩ : Vec3) * (1 : ℚ)))).2|
        then (nudge0 c1Sampler ⟨0, 0, 0⟩ ⟨1, 0, 0⟩ 4 0 (c1Sampler ⟨0, 0, 0⟩)).1
        else (nudge1 c1Sampler ⟨0, 0, 0⟩ ⟨1, 0, 0⟩ 4 1
          (c1Sampler ((⟨0, 0, 0⟩ : Vec3) + (⟨1, 0, 0⟩ : Vec3) * (1 : ℚ)))).1) ∧
      refinerMidEvalCount c1Sampler ⟨0, 0, 0⟩ ⟨1, 0, 0⟩ 1 8 = 0) :=
  ⟨by decide,
    refine_same_sign_returns_nudged_endpoint c1Sampler ⟨0, 0, 0⟩ ⟨1, 0, 0⟩ 1 8 (by decide)⟩

/-- Claim C3: the `binary_search_iterations` argument has no influence on
`raycast_generic` (its body never reads it; line 297 passes a literal 0 to
`raycast_sdf`) nor on `raycast_generic_world` (line 335 passes a literal 0
to `raycast_generic`); the fallback branch of `raycast_generic` is the SDF
path with 0 refinement iterations. -/
theorem raycast_iterations_have_no_influence (gsi : (Int3 → ℚ) → Vec3 → ℚ)
    (vd : VoxelData) (mesher : VoxelMesher) (T : Transform3D) (o d : Vec3)
    (maxd : ℚ) (mask : Nat) (b b' : Nat) :
    raycast_generic gsi vd mesher o d maxd mask b =
      raycast_generic gsi vd mesher o d maxd mask b' ∧
    raycast_generic_world gsi vd mesher T o d maxd mask b =
      raycast_generic_world gsi vd mesher T o d maxd mask b' ∧
    raycast_generic gsi vd VoxelMesher.other o d maxd mask b =
      raycast_sdf gsi vd o d maxd 0 :=
  ⟨rfl, rfl, rfl⟩

/-- Claim C5: each bisection round halves the bracket width `|d1 - d0|`
exactly (in the ℚ idealization of float arithmetic), so `n` rounds divide
the width at entry of the bisection phase by `2 ^ n`. -/
theorem bisection_halves_bracket_width (s : Vec3 → ℚ) (pos0 dir : Vec3)
    (st : ℚ × ℚ × ℚ × ℚ) (n : Nat) :
    bracketWidth ((bisectStep s pos0 dir)^[n] st) = bracketWidth st / 2 ^ n := by
  induction n with
  | zero => simp
  | succ n ih =>
    rw [Function.iterate_succ_apply', bisectStep_width, ih, pow_succ, div_div]

/-- Claim C4: whenever the nudged bracket endpoints have field values of
genuinely different sign (under the `> 0` test), the refiner performs
exactly `iterations` bisection rounds (the bisection state is the
`iterations`-fold iterate of `bisectStep` and exactly `iterations`
midpoint samples are taken); each round evaluates the field at the
midpoint `(d0 + d1) / 2` and replaces the endpoint whose field value
shares the midpoint's sign; and the sign-difference invariant is preserved
by every round (hence holds after every number of rounds). -/
theorem bisection_preserves_sign_difference (s : Vec3 → ℚ) (pos0 dir : Vec3)
    (d1i : ℚ) (iterations : Nat)
    (h : SignsDiffer (nudgedState s pos0 dir d1i)) :
    refineState s pos0 dir d1i iterations =
      (bisectStep s pos0 dir)^[iterations] (nudgedState s pos0 dir d1i) ∧
    refinerMidEvalCount s pos0 dir d1i iterations = iterations ∧
    (∀ n : Nat, SignsDiffer ((bisectStep s pos0 dir)^[n] (nudgedState s pos0 dir d1i))) ∧
    (∀ st : ℚ × ℚ × ℚ × ℚ, bisectStep s pos0 dir st =
      if decide (s (pos0 + dir * ((st.1 + st.2.2.1) / 2)) > 0) ≠ decide (st.2.1 > 0)
      then (st.1, st.2.1, (st.1 + st.2.2.1) / 2, s (pos0 + dir * ((st.1 + st.2.2.1) / 2)))
      else ((st.1 + st.2.2.1) / 2, s (pos0 + dir * ((st.1 + st.2.2.1) / 2)),
        st.2.2.1, st.2.2.2)) := by
  have h' : decide ((nudge0 s pos0 dir 4 0 (s pos0)).2 > 0) ≠
      decide ((nudge1 s pos0 dir 4 d1i (s (pos0 + dir * d1i))).2 > 0) := h
  refine ⟨?_, ?_, ?_, ?_⟩
  · simp only [refineState]
    rw [if_pos h']
    rfl
  · simp only [refinerMidEvalCount]
    rw [if_pos h']
  · exact fun n =>
      iterate_preserves _ SignsDiffer (bisectStep_signsDiffer s pos0 dir) n _ h
  · intro st
    rfl

-- Batteries marks the Rat field operations irreducible; the kernel
-- evaluation of this concrete statement needs them unfolded.
unseal Rat.add Rat.sub Rat.mul Rat.inv in
/-- Claim C4, witness at the plane field `x = 1/4`: the nudged endpoints
have different signs, the refiner takes exactly 3 midpoint samples when
asked for 3 rounds, and the invariant still holds after 2 rounds. -/
theorem bisection_preserves_sign_difference_witness :
    SignsDiffer (nudgedState planeSampler ⟨0, 0, 0⟩ ⟨1, 0, 0⟩ 1) ∧
    refinerMidEvalCount planeSampler ⟨0, 0, 0⟩ ⟨1, 0, 0⟩ 1 3 = 3 ∧
    SignsDiffer ((bisectStep planeSampler ⟨0, 0, 0⟩ ⟨1, 0, 0⟩)^[2]
      (nudgedState planeSampler ⟨0, 0, 0⟩ ⟨1, 0, 0⟩ 1)) :=
  ⟨by decide,
    (bisection_preserves_sign_difference planeSampler ⟨0, 0, 0⟩ ⟨1, 0, 0⟩ 1 3
      (by decide)).2.1,
    (bisection_preserves_sign_difference planeSampler ⟨0, 0, 0⟩ ⟨1, 0, 0⟩ 1 3
      (by decide)).2.2.1 2⟩

/-- Claim C6: before bisection, the refiner's first loop moves `d0`
backward from 0 in steps of 0.5 for some number `k ≤ 4` of steps, every
sample it saw before stopping was negative (in particular it moves at all
only if the sample at `d0 = 0` is negative), and if it stopped before
exhausting the 4 attempts the final sample is non-negative; then the
second loop symmetrically moves `d1` forward from `d1_initial` in steps of
0.5, at most 4 times, while the sample stays positive, stopping as soon as
it is non-positive. -/
theorem nudge_phase_characterization (s : Vec3 → ℚ) (pos0 dir : Vec3) (d1i : ℚ) :
    (∃ k : Nat, k ≤ 4 ∧ nudge0 s pos0 dir 4 0 (s pos0) =
        (-((k : ℚ) / 2), s (pos0 + dir * (-((k : ℚ) / 2)))) ∧
      (∀ j < k, s (pos0 + dir * (-((j : ℚ) / 2))) < 0) ∧
      (k < 4 → 0 ≤ s (pos0 + dir * (-((k : ℚ) / 2))))) ∧
    (∃ k : Nat, k ≤ 4 ∧ nudge1 s pos0 dir 4 d1i (s (pos0 + dir * d1i)) =
        (d1i + (k : ℚ) / 2, s (pos0 + dir * (d1i + (k : ℚ) / 2))) ∧
      (∀ j < k, 0 < s (pos0 + dir * (d1i + (j : ℚ) / 2))) ∧
      (k < 4 → s (pos0 + dir * (d1i + (k : ℚ) / 2)) ≤ 0)) := by
  constructor
  · obtain ⟨k, hk, heq, hneg, hstop⟩ := nudge0_spec s pos0 dir 4 0
    rw [Vec3.add_mul_zero] at heq
    refine ⟨k, hk, ?_, ?_, ?_⟩
    · simpa [zero_sub] using heq
    · intro j hj
      simpa [zero_sub] using hneg j hj
    · intro hlt
      simpa [zero_sub] using hstop hlt
  · exact nudge1_spec s pos0 dir 4 d1i

/-- Claim C7: the refiner always terminates: one call issues at most
2 + 4 + 4 + `iterations` field evaluations (two bracket-endpoint samples,
at most four samples per nudge loop, at most `iterations` midpoint
samples), and the returned distance is finite — bounded in magnitude by
`|d1_initial| + 2` (each nudge loop can move its endpoint by at most 2
units and bisection midpoints stay inside the bracket hull). This covers
in particular a field negative at and around `pos0`, where the backward
nudge never establishes a non-negative `sdf0`. -/
theorem refiner_terminates_within_bounds (s : Vec3 → ℚ) (pos0 dir : Vec3)
    (d1i : ℚ) (iterations : Nat) :
    refinerSampleCount s pos0 dir d1i iterations ≤ 2 + 4 + 4 + iterations ∧
    |approximate_distance_to_isosurface_binary_search s pos0 dir d1i iterations| ≤
      |d1i| + 2 := by
  constructor
  · have h0 := nudge0Count_le s pos0 dir 4 0 (s pos0)
    have h1 := nudge1Count_le s pos0 dir 4 d1i (s (pos0 + dir * d1i))
    have h2 : refinerMidEvalCount s pos0 dir d1i iterations ≤ iterations := by
      rw [refinerMidEvalCount]
      split <;> omega
    rw [refinerSampleCount]
    omega
  · obtain ⟨k0, hk0, heq0, _, _⟩ := nudge0_spec s pos0 dir 4 0
    rw [Vec3.add_mul_zero] at heq0
    obtain ⟨k1, hk1, heq1, _, _⟩ := nudge1_spec s pos0 dir 4 d1i
    have habs : (0 : ℚ) ≤ |d1i| := abs_nonneg d1i
    have hk0' : ((k0 : ℚ)) ≤ 4 := by exact_mod_cast hk0
    have hk1' : ((k1 : ℚ)) ≤ 4 := by exact_mod_cast hk1
    have hk0n : (0 : ℚ) ≤ (k0 : ℚ) := Nat.cast_nonneg k0
    have hk1n : (0 : ℚ) ≤ (k1 : ℚ) := Nat.cast_nonneg k1
    have hd1 : -|d1i| ≤ d1i := neg_abs_le d1i
    have hd2 : d1i ≤ |d1i| := le_abs_self d1i
    have hb1 : -(|d1i| + 2) ≤ (nudge0 s pos0 dir 4 0 (s pos0)).1 := by
      rw [heq0]
      show -(|d1i| + 2) ≤ 0 - (k0 : ℚ) / 2
      linarith
    have hb2 : (nudge0 s pos0 dir 4 0 (s pos0)).1 ≤ |d1i| + 2 := by
      rw [heq0]
      show 0 - (k0 : ℚ) / 2 ≤ |d1i| + 2
      linarith
    have hb3 : -(|d1i| + 2) ≤ (nudge1 s pos0 dir 4 d1i (s (pos0 + dir * d1i))).1 := by
      rw [heq1]
      show -(|d1i| + 2) ≤ d1i + (k1 : ℚ) / 2
      linarith
    have hb4 : (nudge1 s pos0 dir 4 d1i (s (pos0 + dir * d1i))).1 ≤ |d1i| + 2 := by
      rw [heq1]
      show d1i + (k1 : ℚ) / 2 ≤ |d1i| + 2
      linarith
    have hmain : -(|d1i| + 2) ≤ (refineState s pos0 dir d1i iterations).1 ∧
        (refineState s pos0 dir d1i iterations).1 ≤ |d1i| + 2 ∧
        -(|d1i| + 2) ≤ (refineState s pos0 dir d1i iterations).2.2.1 ∧
        (refineState s pos0 dir d1i iterations).2.2.1 ≤ |d1i| + 2 := by
      simp only [refineState]
      have hiter := iterate_preserves (bisectStep s pos0 dir)
          (fun st => -(|d1i| + 2) ≤ st.1 ∧ st.1 ≤ |d1i| + 2 ∧
            -(|d1i| + 2) ≤ st.2.2.1 ∧ st.2.2.1 ≤ |d1i| + 2)
          (fun st hst => bisectStep_bounds s pos0 dir (-(|d1i| + 2)) (|d1i| + 2) st hst)
          iterations
          ((nudge0 s pos0 dir 4 0 (s pos0)).1, (nudge0 s pos0 dir 4 0 (s pos0)).2,
           (nudge1 s pos0 dir 4 d1i (s (pos0 + dir * d1i))).1,
           (nudge1 s pos0 dir 4 d1i (s (pos0 + dir * d1i))).2)
          ⟨hb1, hb2, hb3, hb4⟩
      split_ifs with hc
      · exact hiter
      · exact ⟨hb1, hb2, hb3, hb4⟩
    simp only [approximate_distance_to_isosurface_binary_search]
    split_ifs
    · exact abs_le.mpr ⟨hmain.1, hmain.2.1⟩
    · exact abs_le.mpr ⟨hmain.2.2.1, hmain.2.2.2⟩

/-- Claim C8: whenever the (offset-origin) traversal reports a hit,
`raycast_sdf` returns that hit's cells, and its `distance_along_ray` is:
for `binary_search_iterations > 0`, `hit_distance_prev` plus the refiner's
result anchored at `ray_origin + ray_dir * hit_distance_prev` with initial
bracket length `hit_distance - hit_distance_prev`; for
`binary_search_iterations = 0`, the coarse `hit_distance`. -/
theorem raycast_sdf_refines_hit_distance (gsi : (Int3 → ℚ) → Vec3 → ℚ)
    (vd : VoxelData) (o d : Vec3) (maxd : ℚ) (bsi : Nat) (hit : TraversalHit)
    (h : voxel_raycast (o + (⟨1/2, 1/2, 1/2⟩ : Vec3)) d (RaycastPredicate vd) maxd =
      some hit) :
    raycast_sdf gsi vd o d maxd bsi =
      some ⟨hit.hit_pos, hit.prev_pos,
        if 0 < bsi then
          hit.hit_distance_prev +
            approximate_distance_to_isosurface_binary_search (gsi (VolumeSampler vd))
              (o + d * hit.hit_distance_prev) d
              (hit.hit_distance - hit.hit_distance_prev) bsi
        else hit.hit_distance⟩ := by
  simp only [raycast_sdf]
  rw [h]

-- Batteries marks the Rat field operations irreducible; the kernel
-- evaluation of this concrete statement needs them unfolded.
unseal Rat.add Rat.sub Rat.mul Rat.inv in
/-- Claim C8, witness: on the volume solid only at cell (2,0,0), the
traversal from the offset origin hits that cell at distance 3/2 with
previous distance 1/2, and `raycast_sdf` with 2 refinement iterations
returns the refined distance anchored at 1/2. -/
theorem raycast_sdf_refines_hit_distance_witness :
    voxel_raycast ((⟨0, 0, 0⟩ : Vec3) + (⟨1/2, 1/2, 1/2⟩ : Vec3)) ⟨1, 0, 0⟩
      (RaycastPredicate twoSolidVd) 10 = some ⟨⟨2, 0, 0⟩, ⟨1, 0, 0⟩, 3/2, 1/2⟩ ∧
    raycast_sdf nearestSample twoSolidVd ⟨0, 0, 0⟩ ⟨1, 0, 0⟩ 10 2 =
      some ⟨⟨2, 0, 0⟩, ⟨1, 0, 0⟩,
        if 0 < 2 then
          (1 : ℚ)/2 + approximate_distance_to_isosurface_binary_search
            (nearestSample (VolumeSampler twoSolidVd))
            ((⟨0, 0, 0⟩ : Vec3) + (⟨1, 0, 0⟩ : Vec3) * ((1 : ℚ)/2)) ⟨1, 0, 0⟩
            ((3 : ℚ)/2 - (1 : ℚ)/2) 2
        else (3 : ℚ)/2⟩ :=
  ⟨by decide,
    raycast_sdf_refines_hit_distance nearestSample twoSolidVd ⟨0, 0, 0⟩ ⟨1, 0, 0⟩ 10 2
      ⟨⟨2, 0, 0⟩, ⟨1, 0, 0⟩, 3/2, 1/2⟩ (by decide)⟩

/-- Claim C9: at any cell, `raycast_sdf`'s traversal predicate reads the
SDF channel with the far-outside sentinel substituted where the volume has
no data, and reports a hit exactly when the value read is strictly
negative; in particular it never fires on a dataless cell (the sentinel is
a positive constant). Stated over any volume built from a partial SDF
map honoring the `get_voxel` default contract. -/
theorem raycast_predicate_reads_sdf_channel (m : Int3 → Option ℚ) (p : Int3) :
    (RaycastPredicate (VoxelData.ofSdfMap m) p = true ↔
      (m p).getD SDF_FAR_OUTSIDE < 0) ∧
    RaycastPredicate (VoxelData.ofSdfMap (fun _ => none)) p = false := by
  constructor
  · cases hm : m p with
    | none =>
      simp [RaycastPredicate, VoxelData.ofSdfMap, hm, SDF_FAR_OUTSIDE]
    | some q =>
      simp [RaycastPredicate, VoxelData.ofSdfMap, hm]
  · simp [RaycastPredicate, VoxelData.ofSdfMap, SDF_FAR_OUTSIDE]

/-- Claim C10: whenever the local-space ray endpoints (the transformed
origin and far endpoint) are closer than the `0.000001` epsilon in
squared distance, `raycast_generic_world` returns an absent result without
raycasting — the hypothesis constrains only the transform and the ray, and
the conclusion holds for every volume, mesher and sampler, so no voxel
read can be involved. -/
theorem world_degenerate_segment_returns_none (gsi : (Int3 → ℚ) → Vec3 → ℚ)
    (vd : VoxelData) (mesher : VoxelMesher) (T : Transform3D) (o d : Vec3)
    (maxd : ℚ) (mask b : Nat)
    (h : (T.affine_inverse.xform o).distance_squared_to
      (T.affine_inverse.xform (o + d * maxd)) < 1/1000000) :
    raycast_generic_world gsi vd mesher T o d maxd mask b = none := by
  simp only [raycast_generic_world]
  rw [if_pos h]

-- Batteries marks the Rat field operations irreducible; the kernel
-- evaluation of this concrete statement needs them unfolded.
unseal Rat.add Rat.sub Rat.mul Rat.inv in
/-- Claim C10, witness: a zero max distance under the identity transform
gives a zero-length (hence sub-epsilon) local segment and an absent
result. -/
theorem world_degenerate_segment_returns_none_witness :
    ((Transform3D.identity.affine_inverse.xform ⟨0, 0, 0⟩).distance_squared_to
      (Transform3D.identity.affine_inverse.xform
        ((⟨0, 0, 0⟩ : Vec3) + (⟨1, 0, 0⟩ : Vec3) * (0 : ℚ))) < 1/1000000) ∧
    raycast_generic_world nearestSample emptyVd VoxelMesher.other Transform3D.identity
      ⟨0, 0, 0⟩ ⟨1, 0, 0⟩ 0 0 7 = none :=
  ⟨by decide,
    world_degenerate_segment_returns_none nearestSample emptyVd VoxelMesher.other
      Transform3D.identity ⟨0, 0, 0⟩ ⟨1, 0, 0⟩ 0 0 7 (by decide)⟩

-- Batteries marks the Rat field operations irreducible; the kernel
-- evaluation of this concrete statement needs them unfolded.
unseal Rat.add Rat.sub Rat.mul Rat.inv in
/-- Claim C2, counterexample. Two concrete rays refute the claim that the
identity-transform world wrapper always matches the direct local call.
First, with max distance 1/2000 (so the squared local span 1/4000000 falls
below the 1e-6 epsilon) the wrapper returns none while the direct call
hits the solid origin cell. Second, with the non-unit direction (2,0,0)
the wrapper normalizes the direction and rescales by the squared-distance
quotient, returning distance 3/2 where the direct call (whose distances
are in units of the direction vector) returns 3/4 — a factor-2 exact
mismatch, not floating rounding. -/
theorem world_identity_not_identical_cex :
    (raycast_generic_world nearestSample originSolidVd VoxelMesher.other
        Transform3D.identity ⟨0, 0, 0⟩ ⟨1, 0, 0⟩ (1/2000) 0 5 = none ∧
      raycast_generic nearestSample originSolidVd VoxelMesher.other
        ⟨0, 0, 0⟩ ⟨1, 0, 0⟩ (1/2000) 0 5 = some ⟨⟨0, 0, 0⟩, ⟨0, 0, 0⟩, 0⟩) ∧
    (raycast_generic_world nearestSample twoSolidVd VoxelMesher.other
        Transform3D.identity ⟨0, 0, 0⟩ ⟨2, 0, 0⟩ 1 0 5 =
        some ⟨⟨2, 0, 0⟩, ⟨1, 0, 0⟩, 3/2⟩ ∧
      raycast_generic nearestSample twoSolidVd VoxelMesher.other
        ⟨0, 0, 0⟩ ⟨2, 0, 0⟩ 1 0 5 = some ⟨⟨2, 0, 0⟩, ⟨1, 0, 0⟩, 3/4⟩) :=
  ⟨⟨by decide, by decide⟩, ⟨by decide, by decide⟩⟩

/-- Claim C2 (corrected): for every voxel volume, mesher, collision mask
and ray whose direction is unit length, whose max distance is
non-negative, and whose squared length is not below the 1e-6 degeneracy
epsilon, calling `raycast_generic_world` with the identity transform
returns exactly the same result (hit/no-hit, `hit_position`,
`previous_position` and `distance_along_ray`) as calling `raycast_generic`
directly — for any two values of the (ignored) `binary_search_iterations`
arguments. -/
theorem world_identity_matches_local (gsi : (Int3 → ℚ) → Vec3 → ℚ) (vd : VoxelData)
    (mesher : VoxelMesher) (o d : Vec3) (maxd : ℚ) (mask b bq : Nat)
    (hunit : d.x * d.x + d.y * d.y + d.z * d.z = 1)
    (h0 : 0 ≤ maxd)
    (heps : ¬ (maxd * maxd < 1/1000000)) :
    raycast_generic_world gsi vd mesher Transform3D.identity o d maxd mask b =
      raycast_generic gsi vd mesher o d maxd mask bq := by
  have hmne : maxd ≠ 0 := by
    intro e
    rw [e] at heps
    norm_num at heps
  have hxform : ∀ v : Vec3, Transform3D.identity.affine_inverse.xform v = v := by
    intro v
    show Transform3D.xform _ v = v
    rw [identity_affine_inverse]
    cases v
    simp only [Transform3D.xform, Transform3D.identity, Basis.xform, Vec3.add_def]
    norm_num
  have hspan : ∀ p : Vec3, p.distance_squared_to (p + d * maxd) = maxd * maxd := by
    intro p
    simp only [Vec3.distance_squared_to, Vec3.add_def, Vec3.mulq_def]
    ring_nf
    linear_combination (maxd * maxd) * hunit
  have hdir : ∀ p : Vec3, (p + d * maxd - p) / maxd = d := by
    intro p
    simp only [Vec3.add_def, Vec3.sub_def, Vec3.mulq_def, Vec3.divq_def]
    cases d
    simp only [Vec3.mk.injEq]
    refine ⟨?_, ?_, ?_⟩ <;> field_simp
  simp only [raycast_generic_world, hxform, hspan, hdir]
  rw [if_neg heps, sqrtQ_mul_self maxd h0, hdir]
  rw [raycast_generic_bsi_unused gsi vd mesher o d maxd mask 0 bq]
  cases hres : raycast_generic gsi vd mesher o d maxd mask bq with
  | none => rfl
  | some res =>
    have hscale : maxd * maxd / (maxd * maxd) = 1 := div_self (mul_ne_zero hmne hmne)
    rw [hscale]
    cases res
    simp

/-- Claim C2, witness for the corrected statement: a unit-direction,
unit-length ray on the volume solid at cell (2,0,0), with two different
iteration arguments. -/
theorem world_identity_matches_local_witness :
    ((⟨1, 0, 0⟩ : Vec3).x * (⟨1, 0, 0⟩ : Vec3).x +
      (⟨1, 0, 0⟩ : Vec3).y * (⟨1, 0, 0⟩ : Vec3).y +
      (⟨1, 0, 0⟩ : Vec3).z * (⟨1, 0, 0⟩ : Vec3).z = 1) ∧ (0 : ℚ) ≤ 1 ∧
    ¬ ((1 : ℚ) * 1 < 1/1000000) ∧
    raycast_generic_world nearestSample twoSolidVd VoxelMesher.other Transform3D.identity
      ⟨0, 0, 0⟩ ⟨1, 0, 0⟩ 1 0 9 =
      raycast_generic nearestSample twoSolidVd VoxelMesher.other
        ⟨0, 0, 0⟩ ⟨1, 0, 0⟩ 1 0 3 :=
  ⟨by norm_num, by norm_num, by norm_num,
    world_identity_matches_local nearestSample twoSolidVd VoxelMesher.other
      ⟨0, 0, 0⟩ ⟨1, 0, 0⟩ 1 0 9 3 (by norm_num) (by norm_num) (by norm_num)⟩

end VoxelRaycast
